import Mathlib

/-!
# Verification of `RedisDataHandler` (src/redis_data_handler.py)

A shallow embedding of the repository's single class `RedisDataHandler`
and of the library behaviour it depends on, together with proofs of the
specification claims.

Modelling conventions:
* The Redis database is a `Store`: a map from key names to a store-native
  value (`RVal`: string, list, set, sorted set, hash, or stream for the
  kinds the code does not branch on), plus a log of pub/sub emissions.
* Python `json.dumps` / `json.loads` are modelled by an executable
  serializer `Json.dumps` and parser `Json.loads` over a `Json` value
  type.  Numbers are modelled as integers (floating point is out of
  scope); the serializer uses compact separators and escapes only the
  quote and backslash characters (insignificant whitespace and the
  `\\uXXXX` forms are not modelled); the parser returns object fields as
  the literal key/value sequence (claims only quantify over objects with
  distinct keys, where this agrees with Python's dict semantics).
* `pandas` `DataFrame`, `to_datetime`, `drop_duplicates` and
  `sort_values` are modelled on frames built from JSON objects, with
  timestamps restricted to integer epoch values (`Cell.dt none` is NaT);
  behaviour outside the modelled fragment is an explicit
  `PyErr.notModelled` error, never silently guessed.
-/

/-- JSON values as produced by Python's `json` module, with numbers
restricted to integers. -/
inductive Json where
  | null : Json
  | bool (b : Bool) : Json
  | num (n : Int) : Json
  | str (s : String) : Json
  | arr (elems : List Json) : Json
  | obj (fields : List (String × Json)) : Json

/-- Errors the Python code can raise, plus an explicit marker for
behaviour outside the modelled fragment. -/
inductive PyErr where
  | jsonDecode : PyErr
  | keyError : PyErr
  | wrongType : PyErr
  | fuel : PyErr
  | notModelled : PyErr
deriving Repr, DecidableEq

/-- The character for a decimal digit `d < 10`. -/
def digitChar (d : Nat) : Char := Char.ofNat (48 + d)

/-- Big-endian decimal digit characters of `m`, by fuel-bounded
recursion (empty for `m = 0`; any fuel of at least `m` steps is enough). -/
def natCharsAux : Nat → Nat → List Char
  | 0, _ => []
  | fuel + 1, m => if m = 0 then [] else natCharsAux fuel (m / 10) ++ [digitChar (m % 10)]

/-- Decimal digits of a natural number, most significant first. -/
def natChars (m : Nat) : List Char :=
  if m = 0 then ['0'] else natCharsAux m m

/-- Decimal rendering of an integer, as `json.dumps` renders it. -/
def intChars (n : Int) : List Char :=
  if n < 0 then '-' :: natChars (-n).toNat else natChars n.toNat

/-- String-body escaping used by the serializer: quote and backslash are
escaped, all other characters are emitted literally. -/
def escChars : List Char → List Char
  | [] => []
  | c :: rest =>
    if c = '"' ∨ c = '\\' then '\\' :: c :: escChars rest
    else c :: escChars rest

/-- A JSON string literal: quotes around the escaped body. -/
def quoteChars (s : String) : List Char :=
  '"' :: escChars s.data ++ ['"']

mutual
/-- Model of `json.dumps` (compact separators), producing characters. -/
def dumpsV : Json → List Char
  | .null => "null".data
  | .bool true => "true".data
  | .bool false => "false".data
  | .num n => intChars n
  | .str s => quoteChars s
  | .arr l => '[' :: dumpsElems l ++ [']']
  | .obj l => '{' :: dumpsFields l ++ ['}']

/-- Comma-separated renderings of array elements. -/
def dumpsElems : List Json → List Char
  | [] => []
  | v :: vs =>
    dumpsV v ++ (match vs with | [] => [] | _ => ',' :: dumpsElems vs)

/-- Comma-separated `"key":value` renderings of object fields. -/
def dumpsFields : List (String × Json) → List Char
  | [] => []
  | (k, v) :: fs =>
    quoteChars k ++ ':' :: dumpsV v ++
      (match fs with | [] => [] | _ => ',' :: dumpsFields fs)
end

/-- Model of `json.dumps`. -/
def Json.dumps (v : Json) : String := ⟨dumpsV v⟩

mutual
/-- Well-formedness: every object in the value has pairwise distinct
keys, as any JSON value arising from a Python value does. -/
def Json.wf : Json → Bool
  | .null | .bool _ | .num _ | .str _ => true
  | .arr l => Json.wfList l
  | .obj l => (l.map Prod.fst).Nodup && Json.wfFields l

/-- `Json.wf` on every element of a list. -/
def Json.wfList (vs : List Json) : Bool :=
  match vs with
  | [] => true
  | v :: rest => Json.wf v && Json.wfList rest

/-- `Json.wf` on every field value of an object. -/
def Json.wfFields (fs : List (String × Json)) : Bool :=
  match fs with
  | [] => true
  | f :: rest => Json.wf f.2 && Json.wfFields rest
end

/-- Single-character escape decoding inside string literals. -/
def unesc (c : Char) : Option Char :=
  if c = '"' then some '"'
  else if c = '\\' then some '\\'
  else if c = '/' then some '/'
  else if c = 'n' then some '\n'
  else if c = 't' then some '\t'
  else if c = 'r' then some '\r'
  else if c = 'b' then some (Char.ofNat 8)
  else if c = 'f' then some (Char.ofNat 12)
  else none

/-- Scanner for the body of a string literal: the flag records whether
the previous character was an unconsumed backslash. -/
def parseStrGo : Bool → List Char → Option (List Char × List Char)
  | _, [] => none
  | true, c :: rest =>
    match unesc c, parseStrGo false rest with
    | some u, some p => some (u :: p.1, p.2)
    | _, _ => none
  | false, c :: rest =>
    if c = '"' then some ([], rest)
    else if c = '\\' then parseStrGo true rest
    else
      match parseStrGo false rest with
      | some p => some (c :: p.1, p.2)
      | none => none

/-- Parse the body of a string literal after the opening quote; returns
the decoded characters and the input after the closing quote. -/
def parseStrAux (cs : List Char) : Option (List Char × List Char) :=
  parseStrGo false cs

/-- Consume a maximal run of decimal digits, accumulating their value. -/
def parseNatChars : List Char → Nat → Nat × List Char
  | [], acc => (acc, [])
  | c :: rest, acc =>
    if c.isDigit then parseNatChars rest (acc * 10 + (c.toNat - 48))
    else (acc, c :: rest)

/-- True when the input does not begin with a decimal digit (so a number
parse just before it stops at the right place). -/
def headNotDigit : List Char → Prop
  | [] => True
  | c :: _ => ¬ c.isDigit

/-- Which grammar production `parseF` is working on: a value, the tail
of a nonempty array (elements up to `]`), or the tail of a nonempty
object (fields up to `}`).  Array and object tails are returned wrapped
in `Json.arr` / `Json.obj`. -/
inductive PK where
  | val : PK
  | elems : PK
  | fields : PK

/-- Model of the `json.loads` grammar (compact: no insignificant
whitespace), by structural recursion on a fuel bound. -/
def parseF : Nat → PK → List Char → Except PyErr (Json × List Char)
  | 0, _, _ => .error .fuel
  | fuel + 1, .val, cs =>
    match cs with
    | [] => .error .jsonDecode
    | c :: rest =>
      if c = 'n' then
        match rest with
        | 'u' :: 'l' :: 'l' :: r => .ok (.null, r)
        | _ => .error .jsonDecode
      else if c = 't' then
        match rest with
        | 'r' :: 'u' :: 'e' :: r => .ok (.bool true, r)
        | _ => .error .jsonDecode
      else if c = 'f' then
        match rest with
        | 'a' :: 'l' :: 's' :: 'e' :: r => .ok (.bool false, r)
        | _ => .error .jsonDecode
      else if c = '"' then
        match parseStrAux rest with
        | some (body, r) => .ok (.str ⟨body⟩, r)
        | none => .error .jsonDecode
      else if c = '[' then
        match rest with
        | [] => .error .jsonDecode
        | c2 :: r =>
          if c2 = ']' then .ok (.arr [], r)
          else parseF fuel .elems (c2 :: r)
      else if c = '{' then
        match rest with
        | [] => .error .jsonDecode
        | c2 :: r =>
          if c2 = '}' then .ok (.obj [], r)
          else parseF fuel .fields (c2 :: r)
      else if c = '-' then
        match rest with
        | d :: r2 =>
          if d.isDigit then
            let p := parseNatChars (d :: r2) 0
            .ok (.num (-(p.1 : Int)), p.2)
          else .error .jsonDecode
        | [] => .error .jsonDecode
      else if c.isDigit then
        let p := parseNatChars (c :: rest) 0
        .ok (.num (p.1 : Int), p.2)
      else .error .jsonDecode
  | fuel + 1, .elems, cs =>
    match parseF fuel .val cs with
    | .error e => .error e
    | .ok (v, r) =>
      match r with
      | ']' :: r2 => .ok (.arr [v], r2)
      | ',' :: r2 =>
        match parseF fuel .elems r2 with
        | .ok (.arr vs, r3) => .ok (.arr (v :: vs), r3)
        | .ok (_, _) => .error .jsonDecode
        | .error e => .error e
      | _ => .error .jsonDecode
  | fuel + 1, .fields, cs =>
    match cs with
    | '"' :: cs2 =>
      match parseStrAux cs2 with
      | none => .error .jsonDecode
      | some (key, r) =>
        match r with
        | ':' :: r2 =>
          match parseF fuel .val r2 with
          | .error e => .error e
          | .ok (v, r3) =>
            match r3 with
            | '}' :: r4 => .ok (.obj [(⟨key⟩, v)], r4)
            | ',' :: r4 =>
              match parseF fuel .fields r4 with
              | .ok (.obj fs, r5) => .ok (.obj ((⟨key⟩, v) :: fs), r5)
              | .ok (_, _) => .error .jsonDecode
              | .error e => .error e
            | _ => .error .jsonDecode
        | _ => .error .jsonDecode
    | _ => .error .jsonDecode

/-- Model of `json.loads`: parse the whole input, requiring that every
character is consumed. -/
def Json.loads (s : String) : Except PyErr Json :=
  match parseF (s.data.length + 1) .val s.data with
  | .ok (v, []) => .ok v
  | .ok (_, _ :: _) => .error .jsonDecode
  | .error e => .error e

theorem digitChar_spec : ∀ d < 10, (digitChar d).isDigit = true ∧ (digitChar d).toNat = 48 + d := by
  decide

theorem isDigit_ne {c x : Char} (h : c.isDigit = true) (hx : x.isDigit = false) : c ≠ x := by
  intro e
  rw [e, hx] at h
  cases h

theorem parseNatChars_digits (L : List Char) (hL : ∀ c ∈ L, c.isDigit = true) :
    ∀ rest, headNotDigit rest → ∀ acc,
      parseNatChars (L ++ rest) acc =
        (L.foldl (fun a c => a * 10 + (c.toNat - 48)) acc, rest) := by
  induction L with
  | nil =>
    intro rest hrest acc
    cases rest with
    | nil => rfl
    | cons c cs =>
      simp only [headNotDigit] at hrest
      simp [parseNatChars, hrest]
  | cons c L ih =>
    intro rest hrest acc
    have hc : c.isDigit = true := hL c (by simp)
    simp only [List.cons_append, parseNatChars, hc, if_pos]
    exact ih (fun x hx => hL x (by simp [hx])) rest hrest _

theorem foldl_digitChars (ds : List Nat) (h : ∀ d ∈ ds, d < 10) (acc : Nat) :
    ((ds.reverse).map digitChar).foldl (fun a c => a * 10 + (c.toNat - 48)) acc =
      acc * 10 ^ ds.length + Nat.ofDigits 10 ds := by
  induction ds generalizing acc with
  | nil => simp [Nat.ofDigits]
  | cons d tl ih =>
    have hd : d < 10 := h d (by simp)
    have htl : ∀ x ∈ tl, x < 10 := fun x hx => h x (by simp [hx])
    have hchar := (digitChar_spec d hd).2
    simp only [List.reverse_cons, List.map_append, List.foldl_append, ih htl acc,
      List.map_cons, List.map_nil, List.foldl_cons, List.foldl_nil,
      Nat.ofDigits_cons, List.length_cons, hchar]
    ring_nf
    omega

theorem natCharsAux_eq_digits :
    ∀ fuel m, m ≤ fuel → natCharsAux fuel m = ((Nat.digits 10 m).reverse).map digitChar := by
  intro fuel
  induction fuel with
  | zero =>
    intro m hm
    have : m = 0 := by omega
    simp [natCharsAux, this]
  | succ fuel ih =>
    intro m hm
    by_cases h0 : m = 0
    · simp [natCharsAux, h0]
    · have hdiv : m / 10 ≤ fuel := by
        have := Nat.div_lt_self (Nat.pos_of_ne_zero h0) (by norm_num : 1 < 10)
        omega
      rw [natCharsAux, if_neg h0, ih (m / 10) hdiv,
        Nat.digits_def' (by norm_num : 1 < 10) (Nat.pos_of_ne_zero h0)]
      simp

theorem natChars_eq (m : Nat) :
    natChars m = if m = 0 then ['0'] else ((Nat.digits 10 m).reverse).map digitChar := by
  by_cases hm : m = 0
  · simp [natChars, hm]
  · rw [natChars, if_neg hm, if_neg hm, natCharsAux_eq_digits m m le_rfl]

theorem natChars_all_digit (m : Nat) : ∀ c ∈ natChars m, c.isDigit = true := by
  intro c hc
  rw [natChars_eq] at hc
  by_cases hm : m = 0
  · simp [hm] at hc
    simp [hc]
  · simp only [hm, if_neg, if_false] at hc
    simp only [List.mem_map, List.mem_reverse] at hc
    obtain ⟨d, hd, rfl⟩ := hc
    exact (digitChar_spec d (Nat.digits_lt_base (by norm_num) hd)).1

theorem natChars_ne_nil (m : Nat) : natChars m ≠ [] := by
  rw [natChars_eq]
  by_cases hm : m = 0
  · simp [hm]
  · have : Nat.digits 10 m ≠ [] := Nat.digits_ne_nil_iff_ne_zero.mpr hm
    simp [hm, this]

theorem parse_natChars (m : Nat) (rest : List Char) (hrest : headNotDigit rest) :
    parseNatChars (natChars m ++ rest) 0 = (m, rest) := by
  rw [parseNatChars_digits (natChars m) (natChars_all_digit m) rest hrest 0]
  rw [natChars_eq]
  by_cases hm : m = 0
  · simp [hm]
  · have hlt : ∀ d ∈ Nat.digits 10 m, d < 10 :=
      fun d hd => Nat.digits_lt_base (by norm_num) hd
    simp only [hm, if_neg, if_false,
      foldl_digitChars (Nat.digits 10 m) hlt 0, Nat.zero_mul, Nat.zero_add]
    rw [Nat.ofDigits_digits]

theorem parseStrGo_esc (cs : List Char) :
    ∀ rest, parseStrGo false (escChars cs ++ '"' :: rest) = some (cs, rest) := by
  induction cs with
  | nil =>
    intro rest
    rfl
  | cons c tl ih =>
    intro rest
    by_cases hc : c = '"' ∨ c = '\\'
    · rcases hc with rfl | rfl
      · rw [escChars]
        simp only [if_pos (Or.inl rfl), List.cons_append]
        simp [parseStrGo, unesc, ih rest]
      · rw [escChars]
        simp only [if_pos (Or.inr rfl), List.cons_append]
        simp [parseStrGo, unesc, ih rest]
    · push_neg at hc
      rw [escChars]
      simp only [if_neg (by tauto : ¬(c = '"' ∨ c = '\\')), List.cons_append]
      rw [parseStrGo]
      simp [hc.1, hc.2, ih rest]

theorem parseStrAux_esc (cs : List Char) :
    ∀ rest, parseStrAux (escChars cs ++ '"' :: rest) = some (cs, rest) :=
  fun rest => parseStrGo_esc cs rest

theorem strEta (s : String) : String.mk s.data = s := by
  cases s
  rfl

theorem headNotDigit_nil : headNotDigit [] := trivial

theorem headNotDigit_cons {c : Char} {r : List Char} (h : c.isDigit = false) :
    headNotDigit (c :: r) := by
  simp [headNotDigit, h]

theorem natChars_cons (m : Nat) :
    ∃ c L, natChars m = c :: L ∧ c.isDigit = true := by
  obtain ⟨c, L, hL⟩ := List.exists_cons_of_ne_nil (natChars_ne_nil m)
  exact ⟨c, L, hL, natChars_all_digit m c (by rw [hL]; simp)⟩

theorem dumpsV_cons (v : Json) :
    ∃ c cs, dumpsV v = c :: cs ∧ c ≠ ']' ∧ c ≠ '}' := by
  cases v with
  | null => exact ⟨'n', ['u', 'l', 'l'], by simp [dumpsV], by decide, by decide⟩
  | bool b =>
    cases b with
    | true => exact ⟨'t', ['r', 'u', 'e'], by simp [dumpsV], by decide, by decide⟩
    | false => exact ⟨'f', ['a', 'l', 's', 'e'], by simp [dumpsV], by decide, by decide⟩
  | num n =>
    by_cases hn : n < 0
    · exact ⟨'-', natChars (-n).toNat, by simp [dumpsV, intChars, hn], by decide, by decide⟩
    · obtain ⟨c, L, hL, hdig⟩ := natChars_cons n.toNat
      exact ⟨c, L, by simp [dumpsV, intChars, hn, hL],
        isDigit_ne hdig (by decide), isDigit_ne hdig (by decide)⟩
  | str s =>
    exact ⟨'"', escChars s.data ++ ['"'], by simp [dumpsV, quoteChars], by decide, by decide⟩
  | arr l => exact ⟨'[', dumpsElems l ++ [']'], by simp [dumpsV], by decide, by decide⟩
  | obj l => exact ⟨'{', dumpsFields l ++ ['}'], by simp [dumpsV], by decide, by decide⟩


theorem parseF_quote (fuel : Nat) (cs : List Char) :
    parseF (fuel + 1) .val ('"' :: cs) =
      match parseStrAux cs with
      | some (body, r) => .ok (.str (String.mk body), r)
      | none => .error .jsonDecode := rfl

theorem parseF_openBr (fuel : Nat) (c2 : Char) (r : List Char) :
    parseF (fuel + 1) .val ('[' :: c2 :: r) =
      if c2 = ']' then .ok (.arr [], r) else parseF fuel .elems (c2 :: r) := rfl

theorem parseF_openCu (fuel : Nat) (c2 : Char) (r : List Char) :
    parseF (fuel + 1) .val ('{' :: c2 :: r) =
      if c2 = '}' then .ok (.obj [], r) else parseF fuel .fields (c2 :: r) := rfl

theorem parseF_neg (fuel : Nat) (d : Char) (r2 : List Char) :
    parseF (fuel + 1) .val ('-' :: d :: r2) =
      if d.isDigit then
        .ok (.num (-(((parseNatChars (d :: r2) 0).1 : Int))), (parseNatChars (d :: r2) 0).2)
      else .error .jsonDecode := rfl

theorem parseF_elems_step (fuel : Nat) (cs : List Char) :
    parseF (fuel + 1) .elems cs =
      match parseF fuel .val cs with
      | .error e => .error e
      | .ok (v, r) =>
        match r with
        | ']' :: r2 => .ok (.arr [v], r2)
        | ',' :: r2 =>
          match parseF fuel .elems r2 with
          | .ok (.arr vs, r3) => .ok (.arr (v :: vs), r3)
          | .ok (_, _) => .error .jsonDecode
          | .error e => .error e
        | _ => .error .jsonDecode := rfl

theorem parseF_fields_quote (fuel : Nat) (cs2 : List Char) :
    parseF (fuel + 1) .fields ('"' :: cs2) =
      match parseStrAux cs2 with
      | none => .error .jsonDecode
      | some (key, r) =>
        match r with
        | ':' :: r2 =>
          match parseF fuel .val r2 with
          | .error e => .error e
          | .ok (v, r3) =>
            match r3 with
            | '}' :: r4 => .ok (.obj [(String.mk key, v)], r4)
            | ',' :: r4 =>
              match parseF fuel .fields r4 with
              | .ok (.obj fs, r5) => .ok (.obj ((String.mk key, v) :: fs), r5)
              | .ok (_, _) => .error .jsonDecode
              | .error e => .error e
            | _ => .error .jsonDecode
        | _ => .error .jsonDecode := rfl

set_option maxHeartbeats 1000000 in
theorem parseF_digit (fuel : Nat) (c : Char) (rest : List Char) (hdig : c.isDigit = true) :
    parseF (fuel + 1) .val (c :: rest) =
      .ok (.num ((parseNatChars (c :: rest) 0).1 : Int), (parseNatChars (c :: rest) 0).2) := by
  have h1 : c ≠ 'n' := isDigit_ne hdig (by decide)
  have h2 : c ≠ 't' := isDigit_ne hdig (by decide)
  have h3 : c ≠ 'f' := isDigit_ne hdig (by decide)
  have h4 : c ≠ '"' := isDigit_ne hdig (by decide)
  have h5 : c ≠ '[' := isDigit_ne hdig (by decide)
  have h6 : c ≠ '{' := isDigit_ne hdig (by decide)
  have h7 : c ≠ '-' := isDigit_ne hdig (by decide)
  simp only [parseF]
  rw [if_neg h1, if_neg h2, if_neg h3, if_neg h4, if_neg h5, if_neg h6, if_neg h7, if_pos hdig]

theorem parse_dumps_all : ∀ fuel : Nat,
    (∀ v rest, (dumpsV v).length ≤ fuel → headNotDigit rest →
      parseF fuel .val (dumpsV v ++ rest) = .ok (v, rest)) ∧
    (∀ l rest, l ≠ [] → (dumpsElems l).length + 1 ≤ fuel →
      parseF fuel .elems (dumpsElems l ++ ']' :: rest) = .ok (.arr l, rest)) ∧
    (∀ l rest, l ≠ [] → (dumpsFields l).length + 1 ≤ fuel →
      parseF fuel .fields (dumpsFields l ++ '}' :: rest) = .ok (.obj l, rest)) := by
  intro fuel
  induction fuel with
  | zero =>
    refine ⟨?_, ?_, ?_⟩
    · intro v rest hlen _
      obtain ⟨c, cs, hd, -, -⟩ := dumpsV_cons v
      rw [hd] at hlen
      simp at hlen
    · intro l rest _ hlen
      omega
    · intro l rest _ hlen
      omega
  | succ fuel ih =>
    obtain ⟨ihV, ihE, ihF⟩ := ih
    refine ⟨?_, ?_, ?_⟩
    · intro v rest hlen hrest
      cases v with
      | null =>
        rw [show dumpsV .null = ['n', 'u', 'l', 'l'] from by simp [dumpsV]]
        rfl
      | bool b =>
        cases b with
        | true =>
          rw [show dumpsV (.bool true) = ['t', 'r', 'u', 'e'] from by simp [dumpsV]]
          rfl
        | false =>
          rw [show dumpsV (.bool false) = ['f', 'a', 'l', 's', 'e'] from by simp [dumpsV]]
          rfl
      | num n =>
        by_cases hn : n < 0
        · obtain ⟨c, L, hL, hdig⟩ := natChars_cons (-n).toNat
          rw [show dumpsV (.num n) = '-' :: natChars (-n).toNat from by
            simp [dumpsV, intChars, hn]]
          rw [hL, List.cons_append, List.cons_append, parseF_neg, if_pos hdig,
            ← List.cons_append, ← hL, parse_natChars _ rest hrest]
          exact congrArg (fun m : Int => (Except.ok (Json.num m, rest) : Except PyErr (Json × List Char)))
            (by omega)
        · obtain ⟨c, L, hL, hdig⟩ := natChars_cons n.toNat
          rw [show dumpsV (.num n) = natChars n.toNat from by simp [dumpsV, intChars, hn]]
          rw [hL, List.cons_append, parseF_digit fuel c _ hdig,
            ← List.cons_append, ← hL, parse_natChars _ rest hrest]
          exact congrArg (fun m : Int => (Except.ok (Json.num m, rest) : Except PyErr (Json × List Char)))
            (by omega)
      | str s =>
        rw [show dumpsV (.str s) ++ rest = '"' :: (escChars s.data ++ '"' :: rest) from by
          simp [dumpsV, quoteChars]]
        rw [parseF_quote, parseStrAux_esc]
      | arr l =>
        cases l with
        | nil =>
          rw [show dumpsV (.arr []) ++ rest = '[' :: ']' :: rest from by
            simp [dumpsV, dumpsElems]]
          rfl
        | cons x xs =>
          obtain ⟨c, cs, hd, hne1, hne2⟩ := dumpsV_cons x
          rw [show dumpsV (.arr (x :: xs)) = '[' :: dumpsElems (x :: xs) ++ [']'] from by
            simp [dumpsV]] at hlen
          simp only [List.length_append, List.length_cons, List.length_nil] at hlen
          have hde : ∃ L, dumpsElems (x :: xs) = c :: L := by
            cases xs with
            | nil => exact ⟨cs, by simp [dumpsElems, hd]⟩
            | cons y ys =>
              exact ⟨cs ++ ',' :: dumpsElems (y :: ys), by simp [dumpsElems, hd]⟩
          obtain ⟨L, hLeq⟩ := hde
          rw [show dumpsV (.arr (x :: xs)) ++ rest
              = '[' :: (dumpsElems (x :: xs) ++ ']' :: rest) from by simp [dumpsV]]
          rw [hLeq, List.cons_append, parseF_openBr, if_neg hne1,
            ← List.cons_append, ← hLeq]
          exact ihE (x :: xs) rest (by simp) (by omega)
      | obj l =>
        cases l with
        | nil =>
          rw [show dumpsV (.obj []) ++ rest = '{' :: '}' :: rest from by
            simp [dumpsV, dumpsFields]]
          rfl
        | cons kv fs =>
          obtain ⟨k, v⟩ := kv
          rw [show dumpsV (.obj ((k, v) :: fs))
              = '{' :: dumpsFields ((k, v) :: fs) ++ ['}'] from by simp [dumpsV]] at hlen
          simp only [List.length_append, List.length_cons, List.length_nil] at hlen
          have hde : ∃ L, dumpsFields ((k, v) :: fs) = '"' :: L := by
            cases fs with
            | nil =>
              exact ⟨escChars k.data ++ '"' :: ':' :: dumpsV v, by
                simp [dumpsFields, quoteChars]⟩
            | cons g gs =>
              exact ⟨escChars k.data ++ '"' :: ':' ::
                  (dumpsV v ++ ',' :: dumpsFields (g :: gs)), by
                simp [dumpsFields, quoteChars]⟩
          obtain ⟨L, hLeq⟩ := hde
          rw [show dumpsV (.obj ((k, v) :: fs)) ++ rest
              = '{' :: (dumpsFields ((k, v) :: fs) ++ '}' :: rest) from by simp [dumpsV]]
          rw [hLeq, List.cons_append, parseF_openCu, if_neg (by decide : ('"' : Char) ≠ '}'),
            ← List.cons_append, ← hLeq]
          exact ihF ((k, v) :: fs) rest (by simp) (by omega)
    · intro l rest hne hlen
      cases l with
      | nil => exact absurd rfl hne
      | cons x xs =>
        rw [parseF_elems_step]
        cases xs with
        | nil =>
          rw [show dumpsElems [x] = dumpsV x from by simp [dumpsElems]] at hlen ⊢
          rw [ihV x (']' :: rest) (by omega) (headNotDigit_cons (by decide))]
          rfl
        | cons y ys =>
          rw [show dumpsElems (x :: y :: ys) = dumpsV x ++ ',' :: dumpsElems (y :: ys) from by
            simp [dumpsElems]] at hlen ⊢
          simp only [List.length_append, List.length_cons] at hlen
          rw [List.append_assoc, List.cons_append]
          rw [ihV x (',' :: (dumpsElems (y :: ys) ++ ']' :: rest)) (by omega)
            (headNotDigit_cons (by decide))]
          simp only []
          rw [ihE (y :: ys) rest (by simp) (by omega)]
    · intro l rest hne hlen
      cases l with
      | nil => exact absurd rfl hne
      | cons kv fs =>
        obtain ⟨k, v⟩ := kv
        cases fs with
        | nil =>
          rw [show dumpsFields [(k, v)] = quoteChars k ++ ':' :: dumpsV v from by
            simp [dumpsFields]] at hlen ⊢
          simp only [quoteChars, List.length_append, List.length_cons] at hlen
          rw [show (quoteChars k ++ ':' :: dumpsV v) ++ '}' :: rest
              = '"' :: (escChars k.data ++ '"' :: (':' :: (dumpsV v ++ '}' :: rest))) from by
            simp [quoteChars]]
          rw [parseF_fields_quote, parseStrAux_esc]
          simp only []
          rw [ihV v ('}' :: rest) (by omega) (headNotDigit_cons (by decide))]
          simp [strEta]
        | cons g gs =>
          rw [show dumpsFields ((k, v) :: g :: gs)
              = quoteChars k ++ ':' :: (dumpsV v ++ ',' :: dumpsFields (g :: gs)) from by
            simp [dumpsFields]] at hlen ⊢
          simp only [quoteChars, List.length_append, List.length_cons] at hlen
          rw [show (quoteChars k ++ ':' :: (dumpsV v ++ ',' :: dumpsFields (g :: gs))) ++ '}' :: rest
              = '"' :: (escChars k.data ++ '"' ::
                  (':' :: (dumpsV v ++ ',' :: (dumpsFields (g :: gs) ++ '}' :: rest)))) from by
            simp [quoteChars]]
          rw [parseF_fields_quote, parseStrAux_esc]
          simp only []
          rw [ihV v (',' :: (dumpsFields (g :: gs) ++ '}' :: rest)) (by omega)
            (headNotDigit_cons (by decide))]
          simp only []
          rw [ihF (g :: gs) rest (by simp) (by omega)]

/-- The serializer/parser round-trip: `json.loads(json.dumps(v))`
recovers `v`. -/
theorem loads_dumps (v : Json) : Json.loads (Json.dumps v) = .ok v := by
  have h := (parse_dumps_all ((dumpsV v).length + 1)).1 v [] (by omega) trivial
  rw [List.append_nil] at h
  simp [Json.loads, Json.dumps, h]

/-- Store-native value kinds (`stream` stands for any kind the code's
`if`/`elif` chain does not branch on). -/
inductive RVal where
  | str (s : String) : RVal
  | list (xs : List String) : RVal
  | set (xs : List String) : RVal
  | zset (xs : List (String × Int)) : RVal
  | hash (xs : List (String × String)) : RVal
  | stream (entries : Nat) : RVal

/-- The Redis database: key/value map plus the log of pub/sub emissions
(channel, payload). -/
structure Store where
  kv : String → Option RVal
  channel : List (String × String)

/-- `EXISTS key`. -/
def rexists (st : Store) (k : String) : Bool := (st.kv k).isSome

/-- `TYPE key`, as the string the Python code compares against. -/
def rvType : RVal → String
  | .str _ => "string"
  | .list _ => "list"
  | .set _ => "set"
  | .zset _ => "zset"
  | .hash _ => "hash"
  | .stream _ => "stream"

/-- Replace the value bound to key `k`. -/
def Store.upd (st : Store) (k : String) (rv : RVal) : Store :=
  { st with kv := fun k2 => if k2 = k then some rv else st.kv k2 }

/-- `SET key s` (overwrites any previous value of any kind). -/
def rset (st : Store) (k : String) (s : String) : Store := st.upd k (.str s)

/-- `DEL key`. -/
def rdel (st : Store) (k : String) : Store :=
  { st with kv := fun k2 => if k2 = k then none else st.kv k2 }

/-- `PUBLISH key msg` (pub/sub only; does not touch the key space). -/
def rpublish (st : Store) (k : String) (msg : String) : Store :=
  { st with channel := st.channel ++ [(k, msg)] }

/-- `GET key`: absent keys give `none`; non-string kinds raise WRONGTYPE. -/
def rget (st : Store) (k : String) : Except PyErr (Option String) :=
  match st.kv k with
  | none => .ok none
  | some (.str s) => .ok (some s)
  | some _ => .error .wrongType

/-- `RPUSH key x`: creates a one-element list on an absent key, appends
on a list key, raises WRONGTYPE otherwise. -/
def rpush (st : Store) (k : String) (x : String) : Except PyErr Store :=
  match st.kv k with
  | none => .ok (st.upd k (.list [x]))
  | some (.list xs) => .ok (st.upd k (.list (xs ++ [x])))
  | some _ => .error .wrongType

/-- `LRANGE key 0 -1`: the whole list; an absent key is the empty list. -/
def lrange (st : Store) (k : String) : Except PyErr (List String) :=
  match st.kv k with
  | none => .ok []
  | some (.list xs) => .ok xs
  | some _ => .error .wrongType

/-- The list stored under `k` (empty when absent or of another kind);
used to state what `publish_dataframe` appends. -/
def listAt (st : Store) (k : String) : List String :=
  match st.kv k with
  | some (.list xs) => xs
  | _ => []

/-- A row of the caller's DataFrame: an ordered mapping from field name
to scalar value.  `row.to_json()` is modelled as serializing the
corresponding JSON object. -/
def rowJson (row : List (String × Json)) : String := Json.dumps (.obj row)

/-- Python slicing `l[start:]` (`df.iloc[start:]`), including the
negative-start convention. -/
def pySliceFrom {α : Type} (l : List α) (start : Int) : List α :=
  if 0 ≤ start then l.drop start.toNat
  else l.drop ((l.length + start).toNat)

/-- The `for _, row in new_rows.iterrows()` loop body of
`publish_dataframe`: RPUSH each serialized row, then optionally PUBLISH
the same payload. -/
def pubRows (st : Store) (rows : List (List (String × Json))) (key : String)
    (publish : Bool) : Except PyErr Store :=
  match rows with
  | [] => .ok st
  | row :: rest =>
    match rpush st key (rowJson row) with
    | .error e => .error e
    | .ok st1 => pubRows (if publish then rpublish st1 key (rowJson row) else st1) rest key publish

/-- `RedisDataHandler.publish_dataframe` (src/redis_data_handler.py,
lines 37-55): pushes the rows after `last_published_index`, in order,
and returns `len(df) - 1`. -/
def publish_dataframe (st : Store) (df : List (List (String × Json))) (key : String)
    (last_published_index : Int) (publish : Bool) : Except PyErr (Store × Int) :=
  let new_rows := pySliceFrom df (last_published_index + 1)
  match pubRows st new_rows key publish with
  | .error e => .error e
  | .ok st2 => .ok (st2, (df.length : Int) - 1)

/-- `RedisDataHandler.publish_to_redis_json` (lines 57-71): SET the
serialized value, then optionally PUBLISH the same payload. -/
def publish_to_redis_json (st : Store) (data : Json) (key : String) (publish : Bool) : Store :=
  let json_data := Json.dumps data
  let st1 := rset st key json_data
  if publish then rpublish st1 key json_data else st1

/-- `RedisDataHandler.publish_to_redis_str` (lines 73-88): SET the raw
string, optionally PUBLISH it (the trailing debug GET does not change
state). -/
def publish_to_redis_str (st : Store) (data : String) (key : String) (publish : Bool) : Store :=
  let st1 := rset st key data
  if publish then rpublish st1 key data else st1

/-- `RedisDataHandler.retrieve_json_from_redis` (lines 108-121): GET,
`None` when absent, otherwise `json.loads`. -/
def retrieve_json_from_redis (st : Store) (key : String) : Except PyErr (Option Json) :=
  match rget st key with
  | .error e => .error e
  | .ok none => .ok none
  | .ok (some s) =>
    match Json.loads s with
    | .ok v => .ok (some v)
    | .error e => .error e

/-- `RedisDataHandler.retrieve_str_from_redis` (lines 123-136): GET,
`None` when absent, otherwise the stored string. -/
def retrieve_str_from_redis (st : Store) (key : String) : Except PyErr (Option String) :=
  rget st key

/-- The report dictionary returned by `delete_keys`. -/
structure DelReport where
  deletedCount : Nat
  nonExistent : List String
deriving Repr, DecidableEq

/-- The `for key in keys` loop of `delete_keys`: existence-check, then
delete-and-count or record as non-existent (appended in input order). -/
def delGo : Store → List String → Nat → List String → Store × DelReport
  | st, [], cnt, acc => (st, ⟨cnt, acc⟩)
  | st, k :: ks, cnt, acc =>
    if rexists st k then delGo (rdel st k) ks (cnt + 1) acc
    else delGo st ks cnt (acc ++ [k])

/-- `RedisDataHandler.delete_keys` (lines 138-166): a single key is
wrapped into a one-element list, then each key is checked and deleted. -/
def delete_keys (st : Store) (keys : Sum String (List String)) : Store × DelReport :=
  let ks := match keys with
    | .inl s => [s]
    | .inr l => l
  delGo st ks 0 []

/-- The stats dictionary returned by `get_key_stats`; the mebibyte field
models Python's float division by `1024 * 1024` as exact division in ℚ. -/
structure KeyStats where
  key : String
  ty : String
  numItems : Nat
  sizeBytes : Nat
  sizeMB : Rat
deriving Repr, DecidableEq

/-- `len` of a Redis bulk string (a byte count). -/
def bytesOf (s : String) : Nat := s.utf8ByteSize

/-- `RedisDataHandler.get_key_stats` (lines 189-247): a message string
for absent keys, otherwise per-kind item count and byte size; kinds
outside the `if`/`elif` chain keep the zero defaults. -/
def get_key_stats (st : Store) (key : String) : Sum String KeyStats :=
  match st.kv key with
  | none => .inl ("Key \x27" ++ key ++ "\x27 does not exist in Redis.")
  | some rv =>
    match rv with
    | .str s =>
      .inr ⟨key, rvType rv, 1, bytesOf s, (bytesOf s : Rat) / (1024 * 1024)⟩
    | .list xs =>
      let b := (xs.map bytesOf).sum
      .inr ⟨key, rvType rv, xs.length, b, (b : Rat) / (1024 * 1024)⟩
    | .set xs =>
      let b := (xs.map bytesOf).sum
      .inr ⟨key, rvType rv, xs.length, b, (b : Rat) / (1024 * 1024)⟩
    | .zset xs =>
      let b := (xs.map (fun p => bytesOf p.1)).sum
      .inr ⟨key, rvType rv, xs.length, b, (b : Rat) / (1024 * 1024)⟩
    | .hash xs =>
      let b := (xs.map (fun p => bytesOf p.1 + bytesOf p.2)).sum
      .inr ⟨key, rvType rv, xs.length, b, (b : Rat) / (1024 * 1024)⟩
    | .stream _ =>
      .inr ⟨key, rvType rv, 0, 0, 0⟩

/-- One DataFrame cell: missing value (NaN), a JSON scalar/value, or a
converted timestamp (`dt none` is NaT). -/
inductive Cell where
  | na : Cell
  | js (j : Json) : Cell
  | dt (t : Option Int) : Cell

/-- A pandas DataFrame: named columns and rows of cells aligned with
the column list. -/
structure Df where
  cols : List String
  rows : List (List Cell)

/-- Append the keys of one row to the column list, keeping first
appearance order (pandas column union for a list of dicts). -/
def addCols (acc : List String) : List String → List String
  | [] => acc
  | k :: ks => addCols (if acc.contains k then acc else acc ++ [k]) ks

/-- Columns of `pd.DataFrame(list_of_dicts)`: union of keys in first
appearance order. -/
def collectCols (objs : List (List (String × Json))) : List String :=
  objs.foldl (fun acc o => addCols acc (o.map Prod.fst)) []

/-- Python dict lookup (last binding wins, matching `json.loads`). -/
def lookupField (o : List (String × Json)) (c : String) : Option Json :=
  o.foldl (fun r p => if p.1 = c then some p.2 else r) none

/-- The cell a dict contributes to a column: missing keys and JSON
`null` (Python `None`) both become NaN. -/
def cellOf (o : List (String × Json)) (c : String) : Cell :=
  match lookupField o c with
  | none => .na
  | some .null => .na
  | some j => .js j

/-- `pd.DataFrame(list_of_dicts)`. -/
def mkDataFrame (objs : List (List (String × Json))) : Df :=
  let cols := collectCols objs
  ⟨cols, objs.map (fun o => cols.map (fun c => cellOf o c))⟩

/-- `json.loads` output is fed to `pd.DataFrame` as a dict; non-object
entries are outside the modelled fragment. -/
def asObj : Json → Except PyErr (List (String × Json))
  | .obj o => .ok o
  | _ => .error .notModelled

/-- `pd.to_datetime` on one cell: NaN becomes NaT, integers are epoch
values; date strings and other payloads are outside the modelled
fragment. -/
def toDatetimeCell : Cell → Except PyErr Cell
  | .na => .ok (.dt none)
  | .js (.num n) => .ok (.dt (some n))
  | .js .null => .ok (.dt none)
  | _ => .error .notModelled

/-- Equality on timestamp cells, as `drop_duplicates` compares them
(NaT counts as equal to NaT). -/
def cellTsEq : Cell → Cell → Bool
  | .dt a, .dt b => a = b
  | .na, .na => true
  | _, _ => false

/-- `drop_duplicates(subset=['timestamp'], keep='last')` on the rows:
keep a row only when no later row has an equal timestamp cell. -/
def dropDupTs (i : Nat) : List (List Cell) → List (List Cell)
  | [] => []
  | r :: rest =>
    if rest.any (fun r2 => cellTsEq (r.getD i .na) (r2.getD i .na)) then dropDupTs i rest
    else r :: dropDupTs i rest

/-- The ascending order `sort_values(by='timestamp')` uses, with NaT
placed last (`na_position='last'`). -/
def cellTsLe : Cell → Cell → Bool
  | .dt (some a), .dt (some b) => a ≤ b
  | .dt (some _), .dt none => true
  | .dt none, .dt (some _) => false
  | .dt none, .dt none => true
  | _, _ => true

/-- Insertion step of the timestamp sort. -/
def insertByTs (i : Nat) (r : List Cell) : List (List Cell) → List (List Cell)
  | [] => [r]
  | r2 :: rest =>
    if cellTsLe (r.getD i .na) (r2.getD i .na) then r :: r2 :: rest
    else r2 :: insertByTs i r rest

/-- `sort_values(by='timestamp')` (the timestamps are pairwise distinct
after deduplication, so any comparison sort computes this result). -/
def sortByTs (i : Nat) : List (List Cell) → List (List Cell)
  | [] => []
  | r :: rest => insertByTs i r (sortByTs i rest)

/-- Effectful map over a list, stopping at the first error (the Python
list comprehension at line 101, and the column coercion at line 103). -/
def exMapM {α β : Type} (f : α → Except PyErr β) : List α → Except PyErr (List β)
  | [] => .ok []
  | a :: l =>
    match f a with
    | .error e => .error e
    | .ok b =>
      match exMapM f l with
      | .error e => .error e
      | .ok bs => .ok (b :: bs)

/-- `RedisDataHandler.retrieve_dataframe_from_redis` (lines 90-106):
LRANGE the whole list, `json.loads` every entry, build a DataFrame,
coerce the `timestamp` column (`KeyError` when the column is missing,
as on an empty frame), deduplicate keeping the last occurrence, sort
ascending. -/
def retrieve_dataframe_from_redis (st : Store) (key : String) : Except PyErr Df :=
  match lrange st key with
  | .error e => .error e
  | .ok data =>
    match exMapM Json.loads data with
    | .error e => .error e
    | .ok rows =>
      match exMapM asObj rows with
      | .error e => .error e
      | .ok objs =>
        let df := mkDataFrame objs
        match df.cols.findIdx? (fun c => c = "timestamp") with
        | none => .error .keyError
        | some i =>
          match exMapM (fun r => (toDatetimeCell (r.getD i .na)).map (fun c2 => r.set i c2)) df.rows with
          | .error e => .error e
          | .ok rows2 => .ok ⟨df.cols, sortByTs i (dropDupTs i rows2)⟩

theorem rexists_rdel (st : Store) (k k2 : String) (h : k2 ≠ k) :
    rexists (rdel st k) k2 = rexists st k2 := by
  simp [rexists, rdel, h]

theorem delGo_partition : ∀ (ks : List String) (st : Store) (cnt : Nat) (acc : List String),
    (delGo st ks cnt acc).2.deletedCount + (delGo st ks cnt acc).2.nonExistent.length
      = cnt + acc.length + ks.length := by
  intro ks
  induction ks with
  | nil => intro st cnt acc; simp [delGo]
  | cons k ks ih =>
    intro st cnt acc
    rw [delGo]
    by_cases h : rexists st k
    · rw [if_pos h, ih]
      simp only [List.length_cons]
      omega
    · rw [if_neg h, ih]
      simp only [List.length_cons, List.length_append, List.length_cons, List.length_nil]
      omega

theorem delGo_report : ∀ (ks : List String) (st : Store) (cnt : Nat) (acc : List String),
    ks.Nodup →
    (delGo st ks cnt acc).2.deletedCount = cnt + (ks.filter (fun k => rexists st k)).length ∧
    (delGo st ks cnt acc).2.nonExistent = acc ++ ks.filter (fun k => !rexists st k) := by
  intro ks
  induction ks with
  | nil => intro st cnt acc _; simp [delGo]
  | cons k ks ih =>
    intro st cnt acc hnd
    have hk : k ∉ ks := (List.nodup_cons.mp hnd).1
    have hnd2 : ks.Nodup := (List.nodup_cons.mp hnd).2
    rw [delGo]
    by_cases h : rexists st k
    · have hsame : ∀ k2 ∈ ks, rexists (rdel st k) k2 = rexists st k2 := by
        intro k2 hk2
        exact rexists_rdel st k k2 (fun e => hk (e ▸ hk2))
      have hf1 : List.filter (fun k2 => rexists (rdel st k) k2) ks
          = List.filter (fun k2 => rexists st k2) ks :=
        List.filter_congr (fun k2 hk2 => hsame k2 hk2)
      have hf2 : List.filter (fun k2 => !rexists (rdel st k) k2) ks
          = List.filter (fun k2 => !rexists st k2) ks :=
        List.filter_congr (fun k2 hk2 => by rw [hsame k2 hk2])
      obtain ⟨h1, h2⟩ := ih (rdel st k) (cnt + 1) acc hnd2
      rw [hf1] at h1
      rw [hf2] at h2
      rw [if_pos h, h1, h2]
      constructor
      · rw [List.filter_cons_of_pos (by simpa using h)]
        simp only [List.length_cons]
        omega
      · rw [List.filter_cons_of_neg (by simpa using h)]
    · obtain ⟨h1, h2⟩ := ih st cnt (acc ++ [k]) hnd2
      rw [if_neg h, h1, h2]
      constructor
      · rw [List.filter_cons_of_neg (by simpa using h)]
      · rw [List.filter_cons_of_pos (by simpa using h), List.append_assoc]
        rfl

/-- C6: `delete_keys` reports the number of keys actually deleted and
the non-existent keys, the latter in input order; on the claim's example
(`"a"` exists, `"b"` does not) this is count 1 and list `["b"]`. -/
theorem C6_delete_report (st : Store) (keys : List String) (hnd : keys.Nodup) :
    (delete_keys st (.inr keys)).2.deletedCount
        = (keys.filter (fun k => rexists st k)).length ∧
    (delete_keys st (.inr keys)).2.nonExistent = keys.filter (fun k => !rexists st k) := by
  obtain ⟨h1, h2⟩ := delGo_report keys st 0 [] hnd
  exact ⟨by simpa using h1, by simpa using h2⟩

theorem C6_witness :
    (delete_keys ⟨fun k => if k = "a" then some (.str "x") else none, []⟩
        (.inr ["a", "b"])).2.deletedCount
      = ((["a", "b"]).filter
          (fun k => rexists ⟨fun k2 => if k2 = "a" then some (.str "x") else none, []⟩ k)).length ∧
    (delete_keys ⟨fun k => if k = "a" then some (.str "x") else none, []⟩
        (.inr ["a", "b"])).2.nonExistent
      = (["a", "b"]).filter
          (fun k => !rexists ⟨fun k2 => if k2 = "a" then some (.str "x") else none, []⟩ k) :=
  C6_delete_report ⟨fun k => if k = "a" then some (.str "x") else none, []⟩ ["a", "b"] (by decide)

/-- C7: retrieving a non-existent key returns the absent signal `None`,
not an error, for both the structured and the plain-text variants. -/
theorem C7_absent_retrieval (st : Store) (key : String) (h : st.kv key = none) :
    retrieve_json_from_redis st key = .ok none ∧
    retrieve_str_from_redis st key = .ok none := by
  constructor
  · simp [retrieve_json_from_redis, rget, h]
  · simp [retrieve_str_from_redis, rget, h]

theorem C7_witness :
    retrieve_json_from_redis ⟨fun _ => none, []⟩ "nonexistent-key" = .ok none ∧
    retrieve_str_from_redis ⟨fun _ => none, []⟩ "nonexistent-key" = .ok none :=
  C7_absent_retrieval ⟨fun _ => none, []⟩ "nonexistent-key" rfl

/-- C8: with zero stored entries (absent key or empty list) the frame
has no `timestamp` column, so table retrieval raises (`KeyError`)
instead of returning an empty table. -/
theorem C8_empty_raises (st : Store) (key : String)
    (h : st.kv key = none ∨ st.kv key = some (.list [])) :
    retrieve_dataframe_from_redis st key = .error .keyError := by
  rcases h with h | h <;>
  · have hl : lrange st key = .ok [] := by simp [lrange, h]
    simp only [retrieve_dataframe_from_redis, hl]
    rfl

theorem C8_witness :
    retrieve_dataframe_from_redis ⟨fun _ => none, []⟩ "k" = .error .keyError :=
  C8_empty_raises ⟨fun _ => none, []⟩ "k" (Or.inl rfl)

/-- C9: an existing key whose kind is none of the five the code branches
on gets a stats record (not an error) with zero items, zero bytes and
zero mebibytes. -/
theorem C9_unhandled_kind (st : Store) (key : String) (n : Nat)
    (h : st.kv key = some (.stream n)) :
    get_key_stats st key = .inr ⟨key, "stream", 0, 0, 0⟩ := by
  simp [get_key_stats, h, rvType]

theorem C9_witness :
    get_key_stats ⟨fun k => if k = "s" then some (.stream 2) else none, []⟩ "s"
      = .inr ⟨"s", "stream", 0, 0, 0⟩ :=
  C9_unhandled_kind ⟨fun k => if k = "s" then some (.stream 2) else none, []⟩ "s" 2 rfl

/-- C10: the deleted count plus the number of non-existent keys equals
the number of keys processed: 1 for a single string key, the list
length otherwise. -/
theorem C10_delete_partition (st : Store) (keys : Sum String (List String)) :
    (delete_keys st keys).2.deletedCount + (delete_keys st keys).2.nonExistent.length
      = match keys with
        | .inl _ => 1
        | .inr l => l.length := by
  cases keys with
  | inl s => simpa using delGo_partition [s] st 0 []
  | inr l => simpa using delGo_partition l st 0 []

/-- C5: on a sorted-set key the stats report cardinality as the item
count and the summed byte lengths of the member names (scores excluded)
as the size; and every existing key's stats report the size both in
bytes and in mebibytes, the latter equal to bytes / 1,048,576. -/
theorem C5_zset_stats (st : Store) (key : String) (zs : List (String × Int))
    (h : st.kv key = some (.zset zs)) (hnd : (zs.map Prod.fst).Nodup)
    (key2 : String) (rv : RVal) (h2 : st.kv key2 = some rv) :
    get_key_stats st key = .inr ⟨key, "zset", zs.length,
        (zs.map (fun p => bytesOf p.1)).sum,
        ((zs.map (fun p => bytesOf p.1)).sum : Rat) / 1048576⟩ ∧
    ∃ s : KeyStats, get_key_stats st key2 = .inr s ∧
      s.sizeMB = (s.sizeBytes : Rat) / 1048576 := by
  constructor
  · simp only [get_key_stats, h]
    norm_num [rvType]
  · simp only [get_key_stats, h2]
    cases rv <;> exact ⟨_, rfl, by norm_num⟩

theorem C5_witness :
    get_key_stats ⟨fun k => if k = "z" then some (.zset [("ab", 3), ("c", 7)]) else none, []⟩ "z"
      = .inr ⟨"z", "zset", ([("ab", (3 : Int)), ("c", 7)]).length,
          (([("ab", (3 : Int)), ("c", 7)]).map (fun p => bytesOf p.1)).sum,
          ((([("ab", (3 : Int)), ("c", 7)]).map (fun p => bytesOf p.1)).sum : Rat) / 1048576⟩ ∧
    ∃ s : KeyStats,
      get_key_stats ⟨fun k => if k = "z" then some (.zset [("ab", 3), ("c", 7)]) else none, []⟩ "z"
        = .inr s ∧ s.sizeMB = (s.sizeBytes : Rat) / 1048576 :=
  C5_zset_stats ⟨fun k => if k = "z" then some (.zset [("ab", 3), ("c", 7)]) else none, []⟩
    "z" [("ab", 3), ("c", 7)] rfl (by decide) "z" (.zset [("ab", 3), ("c", 7)]) rfl

/-- C4: storing a JSON-representable value with `publish_to_redis_json`
and reading the same key back with `retrieve_json_from_redis` returns
exactly that value. -/
theorem C4_json_roundtrip (st : Store) (v : Json) (key : String) (publish : Bool)
    (hwf : v.wf = true) :
    retrieve_json_from_redis (publish_to_redis_json st v key publish) key = .ok (some v) := by
  have hkv : (publish_to_redis_json st v key publish).kv key = some (.str (Json.dumps v)) := by
    cases publish <;> simp [publish_to_redis_json, rset, rpublish, Store.upd]
  simp [retrieve_json_from_redis, rget, hkv, loads_dumps v]

theorem C4_witness :
    retrieve_json_from_redis
      (publish_to_redis_json ⟨fun _ => none, []⟩
        (.obj [("a", .num 1), ("b", .arr [.str "x", .null])]) "k" true) "k"
    = .ok (some (.obj [("a", .num 1), ("b", .arr [.str "x", .null])])) :=
  C4_json_roundtrip ⟨fun _ => none, []⟩ (.obj [("a", .num 1), ("b", .arr [.str "x", .null])])
    "k" true (by simp [Json.wf, Json.wfFields, Json.wfList])

theorem listAt_rpublish (st : Store) (k key msg : String) :
    listAt (rpublish st k msg) key = listAt st key := rfl

theorem pubRows_ok : ∀ (rows : List (List (String × Json))) (st : Store) (key : String)
    (publish : Bool),
    (st.kv key = none ∨ ∃ xs, st.kv key = some (.list xs)) →
    ∃ st2, pubRows st rows key publish = .ok st2 ∧
      listAt st2 key = listAt st key ++ rows.map rowJson := by
  intro rows
  induction rows with
  | nil =>
    intro st key publish _
    exact ⟨st, rfl, by simp [pubRows]⟩
  | cons row rest ih =>
    intro st key publish hk
    have hpush : ∃ xs, rpush st key (rowJson row) = .ok (st.upd key (.list (xs ++ [rowJson row])))
        ∧ listAt st key = xs := by
      rcases hk with h | ⟨xs, h⟩
      · exact ⟨[], by simp [rpush, h], by simp [listAt, h]⟩
      · exact ⟨xs, by simp [rpush, h], by simp [listAt, h]⟩
    obtain ⟨xs, hpush, hxs⟩ := hpush
    set st1 := st.upd key (.list (xs ++ [rowJson row])) with hst1
    have hmid : (if publish then rpublish st1 key (rowJson row) else st1).kv key
        = some (.list (xs ++ [rowJson row])) := by
      cases publish <;> simp [rpublish, Store.upd, hst1]
    obtain ⟨st2, hrec, hlist⟩ :=
      ih (if publish then rpublish st1 key (rowJson row) else st1) key publish
        (Or.inr ⟨_, hmid⟩)
    refine ⟨st2, ?_, ?_⟩
    · rw [pubRows, hpush]
      exact hrec
    · rw [hlist, show listAt (if publish then rpublish st1 key (rowJson row) else st1) key
        = xs ++ [rowJson row] from by simp [listAt, hmid]]
      simp [hxs]

/-- C1: with a starting cursor of at least -1, `publish_dataframe`
appends exactly `max 0 (len - 1 - c)` serialized rows to the key's
list, in row order, and returns the cursor `len - 1` (also when no rows
are appended). -/
theorem C1_publish_rows (st : Store) (df : List (List (String × Json))) (key : String)
    (c : Int) (publish : Bool) (hc : -1 ≤ c)
    (hk : st.kv key = none ∨ ∃ xs, st.kv key = some (.list xs)) :
    ∃ st2, publish_dataframe st df key c publish = .ok (st2, (df.length : Int) - 1) ∧
      listAt st2 key = listAt st key ++ (df.drop (c + 1).toNat).map rowJson ∧
      ((df.drop (c + 1).toNat).length : Int) = max 0 ((df.length : Int) - 1 - c) := by
  have hslice : pySliceFrom df (c + 1) = df.drop (c + 1).toNat := by
    simp [pySliceFrom, if_pos (by omega : (0 : Int) ≤ c + 1)]
  obtain ⟨st2, hrec, hlist⟩ := pubRows_ok (df.drop (c + 1).toNat) st key publish hk
  refine ⟨st2, ?_, hlist, ?_⟩
  · simp only [publish_dataframe, hslice, hrec]
  · rw [List.length_drop]
    omega

theorem C1_witness :
    ∃ st2, publish_dataframe ⟨fun _ => none, []⟩
        [[("timestamp", .num 1)], [("timestamp", .num 2)]] "k" (-1) true
        = .ok (st2, (([[("timestamp", Json.num 1)], [("timestamp", Json.num 2)]]).length : Int) - 1) ∧
      listAt st2 "k" = listAt ⟨fun _ => none, []⟩ "k"
          ++ (([[("timestamp", Json.num 1)], [("timestamp", Json.num 2)]]).drop
              ((-1 : Int) + 1).toNat).map rowJson ∧
      ((([[("timestamp", Json.num 1)], [("timestamp", Json.num 2)]]).drop
          ((-1 : Int) + 1).toNat).length : Int)
        = max 0 ((([[("timestamp", Json.num 1)], [("timestamp", Json.num 2)]]).length : Int) - 1 - (-1)) :=
  C1_publish_rows ⟨fun _ => none, []⟩ [[("timestamp", .num 1)], [("timestamp", .num 2)]]
    "k" (-1) true (by norm_num) (Or.inl rfl)

theorem lookupField_acc_none : ∀ (o : List (String × Json)) (k : String) (acc : Option Json),
    o.foldl (fun r p => if p.1 = k then some p.2 else r) acc = none ↔
      acc = none ∧ k ∉ o.map Prod.fst := by
  intro o
  induction o with
  | nil => intro k acc; simp
  | cons p o ih =>
    intro k acc
    rw [List.foldl_cons, ih]
    by_cases h : p.1 = k
    · simp [h]
    · simp [h]
      exact fun _ _ e => h e.symm

theorem lookupField_none_iff (o : List (String × Json)) (k : String) :
    lookupField o k = none ↔ k ∉ o.map Prod.fst := by
  rw [lookupField, lookupField_acc_none]
  simp

theorem mem_addCols : ∀ (ks : List String) (acc : List String) (x : String),
    x ∈ addCols acc ks ↔ x ∈ acc ∨ x ∈ ks := by
  intro ks
  induction ks with
  | nil => intro acc x; simp [addCols]
  | cons k ks ih =>
    intro acc x
    rw [addCols, ih]
    by_cases h : acc.contains k
    · rw [if_pos h]
      have hk : k ∈ acc := by simpa using h
      constructor
      · rintro (hx | hx)
        · exact Or.inl hx
        · exact Or.inr (List.mem_cons_of_mem k hx)
      · rintro (hx | hx)
        · exact Or.inl hx
        · rcases List.mem_cons.mp hx with rfl | hx
          · exact Or.inl hk
          · exact Or.inr hx
    · rw [if_neg h]
      simp [List.mem_append, List.mem_cons]
      tauto

theorem mem_collect_aux : ∀ (objs : List (List (String × Json))) (acc : List String) (x : String),
    x ∈ objs.foldl (fun acc o => addCols acc (o.map Prod.fst)) acc ↔
      x ∈ acc ∨ ∃ o ∈ objs, x ∈ o.map Prod.fst := by
  intro objs
  induction objs with
  | nil => intro acc x; simp
  | cons o objs ih =>
    intro acc x
    rw [List.foldl_cons, ih, mem_addCols]
    simp
    tauto

theorem mem_collectCols (objs : List (List (String × Json))) (x : String) :
    x ∈ collectCols objs ↔ ∃ o ∈ objs, x ∈ o.map Prod.fst := by
  rw [collectCols, mem_collect_aux]
  simp

theorem forall2_mem_right {α β : Type} {f : α → β → Prop} :
    ∀ {l : List α} {bs : List β}, List.Forall₂ f l bs → ∀ b ∈ bs, ∃ a ∈ l, f a b := by
  intro l
  induction l with
  | nil =>
    intro bs h b hb
    cases h
    cases hb
  | cons a l ih =>
    intro bs h b hb
    cases h with
    | cons hh ht =>
      rcases List.mem_cons.mp hb with rfl | hb
      · exact ⟨a, by simp, hh⟩
      · obtain ⟨a2, ha2, hf⟩ := ih ht b hb
        exact ⟨a2, by simp [ha2], hf⟩

theorem exMapM_error_of_mem {α β : Type} (f : α → Except PyErr β) :
    ∀ l : List α, (∃ e ∈ l, ∃ er, f e = .error er) → ∃ err, exMapM f l = .error err := by
  intro l
  induction l with
  | nil => rintro ⟨e, he, -⟩; cases he
  | cons a l ih =>
    rintro ⟨e, he, er, herr⟩
    rcases List.mem_cons.mp he with rfl | he
    · exact ⟨er, by rw [exMapM, herr]⟩
    · cases hfa : f a with
      | error e2 => exact ⟨e2, by rw [exMapM, hfa]⟩
      | ok b =>
        obtain ⟨err, hmap⟩ := ih ⟨e, he, er, herr⟩
        exact ⟨err, by rw [exMapM, hfa, hmap]⟩

theorem exMapM_loads_ok : ∀ (entries : List String) (objs : List (List (String × Json))),
    List.Forall₂ (fun e o => Json.loads e = .ok (.obj o)) entries objs →
    exMapM Json.loads entries = .ok (objs.map Json.obj) := by
  intro entries
  induction entries with
  | nil =>
    intro objs h
    cases h
    rfl
  | cons e entries ih =>
    intro objs h
    cases h with
    | cons hh ht =>
      rw [exMapM, hh, ih _ ht]
      rfl

theorem exMapM_asObj : ∀ objs : List (List (String × Json)),
    exMapM asObj (objs.map Json.obj) = .ok objs := by
  intro objs
  induction objs with
  | nil => rfl
  | cons o objs ih =>
    rw [List.map_cons, exMapM]
    simp only [asObj, ih]

theorem pointwise_to_forall2 {α β : Type} (f : α → β → Prop) :
    ∀ l : List α, (∀ e ∈ l, ∃ b, f e b) → ∃ bs, List.Forall₂ f l bs := by
  intro l
  induction l with
  | nil => exact fun _ => ⟨[], List.Forall₂.nil⟩
  | cons a l ih =>
    intro h
    obtain ⟨b, hb⟩ := h a (by simp)
    obtain ⟨bs, hbs⟩ := ih (fun e he => h e (by simp [he]))
    exact ⟨b :: bs, List.Forall₂.cons hb hbs⟩

/-- C2 counterexample: a stored list whose second entry is valid JSON
but lacks the `timestamp` field; retrieval nevertheless succeeds (the
missing value becomes NaT), refuting "raises a DecodeError if any entry
lacks a `timestamp` field". -/
theorem C2_counterexample :
    ("\x7b\x7d" : String) ∈ (["\x7b\"timestamp\":0\x7d", "\x7b\x7d"] : List String) ∧
    Json.loads "\x7b\x7d" = .ok (.obj []) ∧
    lookupField [] "timestamp" = none ∧
    retrieve_dataframe_from_redis
      ⟨fun k => if k = "k" then some (.list ["\x7b\"timestamp\":0\x7d", "\x7b\x7d"]) else none, []⟩ "k"
      = .ok ⟨["timestamp"], [[.dt (some 0)], [.dt none]]⟩ :=
  ⟨by simp, rfl, rfl, rfl⟩

/-- C2 as amended: retrieval fails when some entry is not valid JSON
(the decode error is propagated); and when every entry is a valid JSON
object, it raises (`KeyError`) only when no entry at all carries a
`timestamp` field. -/
theorem C2_amended_decode_errors (st : Store) (key : String) (entries : List String)
    (hkv : st.kv key = some (.list entries)) :
    ((∃ e ∈ entries, ∃ er, Json.loads e = .error er) →
      ∃ err, retrieve_dataframe_from_redis st key = .error err) ∧
    (entries ≠ [] →
      (∀ e ∈ entries, ∃ o, Json.loads e = .ok (.obj o) ∧ lookupField o "timestamp" = none) →
      retrieve_dataframe_from_redis st key = .error .keyError) := by
  have hl : lrange st key = .ok entries := by simp [lrange, hkv]
  constructor
  · intro hbad
    obtain ⟨err, hmap⟩ := exMapM_error_of_mem Json.loads entries hbad
    exact ⟨err, by simp only [retrieve_dataframe_from_redis, hl, hmap]⟩
  · intro hne hval
    obtain ⟨objs, hF⟩ := pointwise_to_forall2
      (fun e o => Json.loads e = .ok (.obj o) ∧ lookupField o "timestamp" = none) entries hval
    have hF1 : List.Forall₂ (fun e o => Json.loads e = .ok (.obj o)) entries objs :=
      hF.imp (fun a b h => h.1)
    have hnots : ∀ o ∈ objs, lookupField o "timestamp" = none := by
      intro o ho
      obtain ⟨e, -, hp⟩ := forall2_mem_right hF o ho
      exact hp.2
    have hcol : List.findIdx? (fun c => c = "timestamp") (collectCols objs) = none := by
      rw [List.findIdx?_eq_none_iff]
      intro x hx
      rw [mem_collectCols] at hx
      obtain ⟨o, ho, hxo⟩ := hx
      simp only [decide_eq_false_iff_not]
      intro hxeq
      exact (lookupField_none_iff o "timestamp").mp (hnots o ho) (hxeq ▸ hxo)
    simp only [retrieve_dataframe_from_redis, hl, exMapM_loads_ok entries objs hF1,
      exMapM_asObj objs, mkDataFrame, hcol]

theorem C2_witness :
    (∃ err, retrieve_dataframe_from_redis
        ⟨fun k => if k = "k" then some (.list ["\x7b"]) else none, []⟩ "k" = .error err) ∧
    retrieve_dataframe_from_redis
        ⟨fun k => if k = "k" then some (.list ["\x7b\x7d"]) else none, []⟩ "k" = .error .keyError :=
  ⟨(C2_amended_decode_errors ⟨fun k => if k = "k" then some (.list ["\x7b"]) else none, []⟩
      "k" ["\x7b"] rfl).1 ⟨"\x7b", by simp, .jsonDecode, rfl⟩,
   (C2_amended_decode_errors ⟨fun k => if k = "k" then some (.list ["\x7b\x7d"]) else none, []⟩
      "k" ["\x7b\x7d"] rfl).2 (by simp)
    (fun e he => by
      rw [List.mem_singleton] at he
      subst he
      exact ⟨[], rfl, rfl⟩)⟩

/-- The timestamp of a decoded row, in the modelled fragment (integer
epoch values). -/
def tsNum (o : List (String × Json)) : Option Int :=
  match lookupField o "timestamp" with
  | some (.num t) => some t
  | _ => none

/-- Written from the claim: "removes rows with duplicate timestamps
keeping the last occurrence in original (stored) order" — a row is kept
exactly when no later row has the same timestamp. -/
def specKeepLast : List (List (String × Json)) → List (List (String × Json))
  | [] => []
  | o :: os =>
    if os.any (fun o2 => decide (tsNum o = tsNum o2)) then specKeepLast os
    else o :: specKeepLast os

/-- Ascending order on (possibly absent) timestamps, absent last. -/
def tsLeB : Option Int → Option Int → Bool
  | some x, some y => x ≤ y
  | some _, none => true
  | none, some _ => false
  | none, none => true

/-- Insertion step of the spec-level ascending sort. -/
def specInsert (o : List (String × Json)) :
    List (List (String × Json)) → List (List (String × Json))
  | [] => [o]
  | o2 :: os => if tsLeB (tsNum o) (tsNum o2) then o :: o2 :: os else o2 :: specInsert o os

/-- Written from the claim: "returns the remaining rows sorted in
ascending timestamp order". -/
def specSortByTs : List (List (String × Json)) → List (List (String × Json))
  | [] => []
  | o :: os => specInsert o (specSortByTs os)

/-- The result-frame cells of a decoded row: its cells per column, with
the timestamp column coerced to the temporal type. -/
def convRow (cols : List String) (i : Nat) (o : List (String × Json)) : List Cell :=
  (cols.map (cellOf o)).set i (.dt (tsNum o))

theorem cellTsLe_dt (a b : Option Int) : cellTsLe (.dt a) (.dt b) = tsLeB a b := by
  cases a <;> cases b <;> rfl

theorem convRow_getD (cols : List String) (i : Nat) (o : List (String × Json))
    (hi : i < cols.length) :
    (convRow cols i o).getD i .na = .dt (tsNum o) := by
  rw [convRow, List.getD_eq_getElem?_getD, List.getElem?_set_self]
  · rfl
  · simpa using hi

theorem exMapM_ok_map {α β γ : Type} (f : β → Except PyErr γ) (g : α → β) (h : α → γ) :
    ∀ l : List α, (∀ x ∈ l, f (g x) = .ok (h x)) → exMapM f (l.map g) = .ok (l.map h) := by
  intro l
  induction l with
  | nil => intro _; rfl
  | cons a l ih =>
    intro hp
    rw [List.map_cons, exMapM, hp a (by simp), ih (fun x hx => hp x (by simp [hx])),
      List.map_cons]

theorem cellTsEq_dt (a b : Option Int) : cellTsEq (.dt a) (.dt b) = decide (a = b) := rfl

theorem any_map_comp {α β : Type} (f : α → β) (p : β → Bool) :
    ∀ l : List α, (l.map f).any p = l.any (fun a => p (f a)) := by
  intro l
  induction l with
  | nil => rfl
  | cons a l ih => simp [ih]

theorem dropDupTs_map_convRow (cols : List String) (i : Nat) (hi : i < cols.length) :
    ∀ objs, dropDupTs i (objs.map (convRow cols i))
      = (specKeepLast objs).map (convRow cols i) := by
  intro objs
  induction objs with
  | nil => rfl
  | cons o os ih =>
    rw [List.map_cons, dropDupTs, specKeepLast]
    have hfun : (fun o2 => cellTsEq ((convRow cols i o).getD i .na)
          ((convRow cols i o2).getD i .na))
        = fun o2 => decide (tsNum o = tsNum o2) := by
      funext o2
      rw [convRow_getD cols i o hi, convRow_getD cols i o2 hi, cellTsEq_dt]
    have h1 := any_map_comp (convRow cols i)
      (fun r2 => cellTsEq ((convRow cols i o).getD i .na) (r2.getD i .na)) os
    have hany := h1.trans (congrArg (fun p => os.any p) hfun)
    rw [hany]
    by_cases h : os.any (fun o2 => decide (tsNum o = tsNum o2)) <;> simp [h, ih]

theorem insertByTs_map_convRow (cols : List String) (i : Nat) (hi : i < cols.length)
    (o : List (String × Json)) :
    ∀ l, insertByTs i (convRow cols i o) (l.map (convRow cols i))
      = (specInsert o l).map (convRow cols i) := by
  intro l
  induction l with
  | nil => rfl
  | cons o2 os ih =>
    rw [List.map_cons, insertByTs, specInsert,
      convRow_getD cols i o hi, convRow_getD cols i o2 hi, cellTsLe_dt]
    by_cases h : tsLeB (tsNum o) (tsNum o2) <;> simp [h, ih]

theorem sortByTs_map_convRow (cols : List String) (i : Nat) (hi : i < cols.length) :
    ∀ l, sortByTs i (l.map (convRow cols i)) = (specSortByTs l).map (convRow cols i) := by
  intro l
  induction l with
  | nil => rfl
  | cons o os ih =>
    rw [List.map_cons, sortByTs, specSortByTs, ih, insertByTs_map_convRow cols i hi]

theorem findIdx?_isSome_of_mem {α : Type} (p : α → Bool) (l : List α) (x : α)
    (hx : x ∈ l) (hp : p x = true) : ∃ i, l.findIdx? p = some i := by
  cases h : l.findIdx? p with
  | some i => exact ⟨i, rfl⟩
  | none =>
    rw [List.findIdx?_eq_none_iff] at h
    rw [h x hx] at hp
    cases hp

theorem retrieve_ok_pipeline (st : Store) (key : String) (entries : List String)
    (objs : List (List (String × Json)))
    (hkv : st.kv key = some (.list entries))
    (hF : List.Forall₂ (fun e o => Json.loads e = .ok (.obj o)) entries objs)
    (hts : ∀ o ∈ objs, ∃ t : Int, lookupField o "timestamp" = some (.num t))
    (hne : entries ≠ []) :
    ∃ i, (collectCols objs).findIdx? (fun c => c = "timestamp") = some i ∧
      retrieve_dataframe_from_redis st key
        = .ok ⟨collectCols objs,
            (specSortByTs (specKeepLast objs)).map (convRow (collectCols objs) i)⟩ := by
  have hl : lrange st key = .ok entries := by simp [lrange, hkv]
  have hone : objs ≠ [] := by
    intro h0
    rw [h0] at hF
    exact hne (List.forall₂_nil_right_iff.mp hF)
  obtain ⟨o0, ho0⟩ := List.exists_mem_of_ne_nil objs hone
  have hmem : "timestamp" ∈ collectCols objs := by
    rw [mem_collectCols]
    obtain ⟨t, ht⟩ := hts o0 ho0
    refine ⟨o0, ho0, ?_⟩
    by_contra hnotin
    rw [← lookupField_none_iff o0 "timestamp"] at hnotin
    rw [hnotin] at ht
    cases ht
  obtain ⟨i, hidx⟩ := findIdx?_isSome_of_mem (fun c => c = "timestamp") (collectCols objs)
    "timestamp" hmem (by simp)
  obtain ⟨hilt, hpi, -⟩ := List.findIdx?_eq_some_iff_getElem.mp hidx
  have hcoli : (collectCols objs)[i] = "timestamp" := by simpa using hpi
  refine ⟨i, hidx, ?_⟩
  have hconv : ∀ o ∈ objs,
      (toDatetimeCell (((collectCols objs).map (fun c => cellOf o c)).getD i .na)).map
          (fun c2 => ((collectCols objs).map (fun c => cellOf o c)).set i c2)
        = .ok (convRow (collectCols objs) i o) := by
    intro o ho
    obtain ⟨t, ht⟩ := hts o ho
    have hget : ((collectCols objs).map (fun c => cellOf o c)).getD i .na
        = cellOf o "timestamp" := by
      rw [List.getD_eq_getElem?_getD, List.getElem?_map,
        List.getElem?_eq_getElem hilt, hcoli]
      rfl
    have hcell : cellOf o "timestamp" = .js (.num t) := by
      simp [cellOf, ht]
    have htsn : tsNum o = some t := by
      simp [tsNum, ht]
    rw [hget, hcell]
    simp only [toDatetimeCell, Except.map]
    rw [convRow, htsn]
  have hmm : exMapM
      (fun r => (toDatetimeCell (r.getD i .na)).map (fun c2 => r.set i c2))
      (objs.map (fun o => (collectCols objs).map (fun c => cellOf o c)))
      = .ok (objs.map (convRow (collectCols objs) i)) :=
    exMapM_ok_map _ _ _ objs hconv
  simp only [retrieve_dataframe_from_redis, hl, exMapM_loads_ok entries objs hF,
    exMapM_asObj objs, mkDataFrame, hidx, hmm,
    dropDupTs_map_convRow (collectCols objs) i hilt objs,
    sortByTs_map_convRow (collectCols objs) i hilt (specKeepLast objs)]

theorem tsLeB_total (a b : Option Int) : tsLeB a b = true ∨ tsLeB b a = true := by
  cases a <;> cases b <;> simp [tsLeB] <;> omega

theorem tsLeB_trans {a b c : Option Int} (h1 : tsLeB a b = true) (h2 : tsLeB b c = true) :
    tsLeB a c = true := by
  cases a <;> cases b <;> cases c <;> simp_all [tsLeB] <;> omega

theorem mem_specInsert (o : List (String × Json)) :
    ∀ (l : List (List (String × Json))) (x : List (String × Json)),
      x ∈ specInsert o l ↔ x = o ∨ x ∈ l := by
  intro l
  induction l with
  | nil => intro x; simp [specInsert]
  | cons o2 os ih =>
    intro x
    rw [specInsert]
    by_cases h : tsLeB (tsNum o) (tsNum o2)
    · rw [if_pos h]
      simp
    · rw [if_neg h]
      simp [ih]
      tauto

theorem pairwise_specInsert (o : List (String × Json)) :
    ∀ l, l.Pairwise (fun a b => tsLeB (tsNum a) (tsNum b) = true) →
      (specInsert o l).Pairwise (fun a b => tsLeB (tsNum a) (tsNum b) = true) := by
  intro l
  induction l with
  | nil => intro _; simp [specInsert]
  | cons o2 os ih =>
    intro hp
    rw [List.pairwise_cons] at hp
    obtain ⟨ho2, hos⟩ := hp
    rw [specInsert]
    by_cases h : tsLeB (tsNum o) (tsNum o2)
    · rw [if_pos h]
      rw [List.pairwise_cons]
      constructor
      · intro x hx
        rcases List.mem_cons.mp hx with rfl | hx
        · exact h
        · exact tsLeB_trans h (ho2 x hx)
      · rw [List.pairwise_cons]
        exact ⟨ho2, hos⟩
    · rw [if_neg h]
      rw [List.pairwise_cons]
      constructor
      · intro x hx
        rcases (mem_specInsert o os x).mp hx with rfl | hx
        · rcases tsLeB_total (tsNum x) (tsNum o2) with hle | hle
          · exact absurd hle h
          · exact hle
        · exact ho2 x hx
      · exact ih hos

theorem sorted_specSortByTs :
    ∀ l, (specSortByTs l).Pairwise (fun a b => tsLeB (tsNum a) (tsNum b) = true) := by
  intro l
  induction l with
  | nil => simp [specSortByTs]
  | cons o os ih => exact pairwise_specInsert o (specSortByTs os) ih

theorem pubRows_kv_list : ∀ (rows : List (List (String × Json))) (st : Store) (key : String)
    (publish : Bool) (st2 : Store),
    pubRows st rows key publish = .ok st2 →
    (st.kv key = none ∨ ∃ xs, st.kv key = some (.list xs)) →
    (st2.kv key = none ∨ ∃ xs, st2.kv key = some (.list xs)) := by
  intro rows
  induction rows with
  | nil =>
    intro st key publish st2 hok hk
    rw [pubRows] at hok
    cases hok
    exact hk
  | cons row rest ih =>
    intro st key publish st2 hok hk
    have hpush : rpush st key (rowJson row)
        = .ok (st.upd key (.list (listAt st key ++ [rowJson row]))) := by
      rcases hk with h | ⟨xs, h⟩
      · simp [rpush, h, listAt]
      · simp [rpush, h, listAt]
    rw [pubRows, hpush] at hok
    have hmid : (if publish
          then rpublish (st.upd key (.list (listAt st key ++ [rowJson row]))) key (rowJson row)
          else st.upd key (.list (listAt st key ++ [rowJson row]))).kv key
        = some (.list (listAt st key ++ [rowJson row])) := by
      cases publish <;> simp [rpublish, Store.upd]
    exact ih _ key publish st2 hok (Or.inr ⟨_, hmid⟩)

/-- C3: on a non-empty stored list of valid rows, retrieval removes
rows with duplicate timestamps keeping the last occurrence in stored
order (`specKeepLast`), returns the rest sorted ascending by timestamp
(`specSortByTs`, with the sortedness stated explicitly); in particular,
publishing two rows with an identical timestamp and retrieving yields
exactly one row, the one appended later. -/
theorem C3_dedup_sort_retrieve (st : Store) (key : String) (entries : List String)
    (objs : List (List (String × Json)))
    (hkv : st.kv key = some (.list entries))
    (hF : List.Forall₂ (fun e o => Json.loads e = .ok (.obj o)) entries objs)
    (hts : ∀ o ∈ objs, ∃ t : Int, lookupField o "timestamp" = some (.num t))
    (hne : entries ≠ [])
    (r1 r2 : List (String × Json)) (key2 : String) (pub : Bool) (t : Int)
    (hr1 : lookupField r1 "timestamp" = some (.num t))
    (hr2 : lookupField r2 "timestamp" = some (.num t)) :
    (∃ i, (collectCols objs).findIdx? (fun c => c = "timestamp") = some i ∧
      retrieve_dataframe_from_redis st key
        = .ok ⟨collectCols objs,
            (specSortByTs (specKeepLast objs)).map (convRow (collectCols objs) i)⟩ ∧
      ((specSortByTs (specKeepLast objs)).map tsNum).Pairwise (fun a b => tsLeB a b = true)) ∧
    (∃ st2 i2, publish_dataframe ⟨fun _ => none, []⟩ [r1, r2] key2 (-1) pub = .ok (st2, 1) ∧
      (collectCols [r1, r2]).findIdx? (fun c => c = "timestamp") = some i2 ∧
      retrieve_dataframe_from_redis st2 key2
        = .ok ⟨collectCols [r1, r2], [convRow (collectCols [r1, r2]) i2 r2]⟩) := by
  constructor
  · obtain ⟨i, hidx, hret⟩ := retrieve_ok_pipeline st key entries objs hkv hF hts hne
    exact ⟨i, hidx, hret,
      (sorted_specSortByTs (specKeepLast objs)).map tsNum (fun a b hab => hab)⟩
  · obtain ⟨st2, hrec, hlist⟩ :=
      pubRows_ok [r1, r2] ⟨fun _ => none, []⟩ key2 pub (Or.inl rfl)
    have hslice : pySliceFrom [r1, r2] ((-1 : Int) + 1) = [r1, r2] := by
      norm_num [pySliceFrom]
    have hpub : publish_dataframe ⟨fun _ => none, []⟩ [r1, r2] key2 (-1) pub
        = .ok (st2, 1) := by
      simp only [publish_dataframe, hslice, hrec]
      norm_num
    have hlist2 : listAt st2 key2 = [rowJson r1, rowJson r2] := by
      rw [hlist]
      rfl
    have hkv2 : st2.kv key2 = some (.list [rowJson r1, rowJson r2]) := by
      rcases pubRows_kv_list [r1, r2] ⟨fun _ => none, []⟩ key2 pub st2 hrec (Or.inl rfl) with
        h | ⟨xs, h⟩
      · simp [listAt, h] at hlist2
      · simp [listAt, h] at hlist2
        rw [h, hlist2]
    have hF2 : List.Forall₂ (fun e o => Json.loads e = .ok (.obj o))
        [rowJson r1, rowJson r2] [r1, r2] :=
      List.Forall₂.cons (loads_dumps (.obj r1))
        (List.Forall₂.cons (loads_dumps (.obj r2)) List.Forall₂.nil)
    have hts2 : ∀ o ∈ ([r1, r2] : List (List (String × Json))),
        ∃ t2 : Int, lookupField o "timestamp" = some (.num t2) := by
      intro o ho
      rcases List.mem_cons.mp ho with rfl | ho
      · exact ⟨t, hr1⟩
      · rcases List.mem_cons.mp ho with rfl | ho
        · exact ⟨t, hr2⟩
        · cases ho
    obtain ⟨i2, hidx2, hret2⟩ :=
      retrieve_ok_pipeline st2 key2 [rowJson r1, rowJson r2] [r1, r2] hkv2 hF2 hts2 (by simp)
    have htsn1 : tsNum r1 = some t := by simp [tsNum, hr1]
    have htsn2 : tsNum r2 = some t := by simp [tsNum, hr2]
    have hkeep : specKeepLast [r1, r2] = [r2] := by
      simp [specKeepLast, htsn1, htsn2]
    have hsort : specSortByTs [r2] = [r2] := rfl
    rw [hkeep, hsort] at hret2
    exact ⟨st2, i2, hpub, hidx2, hret2⟩

theorem C3_witness :
    (∃ i, (collectCols [[("timestamp", Json.num 3)], [("timestamp", Json.num 1)]]).findIdx?
          (fun c => c = "timestamp") = some i ∧
      retrieve_dataframe_from_redis
          ⟨fun k => if k = "k"
              then some (.list ["\x7b\"timestamp\":3\x7d", "\x7b\"timestamp\":1\x7d"]) else none, []⟩ "k"
        = .ok ⟨collectCols [[("timestamp", Json.num 3)], [("timestamp", Json.num 1)]],
            (specSortByTs (specKeepLast [[("timestamp", Json.num 3)], [("timestamp", Json.num 1)]])).map
              (convRow (collectCols [[("timestamp", Json.num 3)], [("timestamp", Json.num 1)]]) i)⟩ ∧
      ((specSortByTs (specKeepLast [[("timestamp", Json.num 3)], [("timestamp", Json.num 1)]])).map
          tsNum).Pairwise (fun a b => tsLeB a b = true)) ∧
    (∃ st2 i2, publish_dataframe ⟨fun _ => none, []⟩
          [[("timestamp", Json.num 7), ("v", Json.num 1)],
           [("timestamp", Json.num 7), ("v", Json.num 2)]] "p" (-1) true = .ok (st2, 1) ∧
      (collectCols [[("timestamp", Json.num 7), ("v", Json.num 1)],
          [("timestamp", Json.num 7), ("v", Json.num 2)]]).findIdx?
          (fun c => c = "timestamp") = some i2 ∧
      retrieve_dataframe_from_redis st2 "p"
        = .ok ⟨collectCols [[("timestamp", Json.num 7), ("v", Json.num 1)],
              [("timestamp", Json.num 7), ("v", Json.num 2)]],
            [convRow (collectCols [[("timestamp", Json.num 7), ("v", Json.num 1)],
                [("timestamp", Json.num 7), ("v", Json.num 2)]]) i2
              [("timestamp", Json.num 7), ("v", Json.num 2)]]⟩) :=
  C3_dedup_sort_retrieve
    ⟨fun k => if k = "k" then some (.list ["\x7b\"timestamp\":3\x7d", "\x7b\"timestamp\":1\x7d"]) else none, []⟩
    "k" ["\x7b\"timestamp\":3\x7d", "\x7b\"timestamp\":1\x7d"]
    [[("timestamp", Json.num 3)], [("timestamp", Json.num 1)]]
    rfl
    (List.Forall₂.cons rfl (List.Forall₂.cons rfl List.Forall₂.nil))
    (by
      intro o ho
      rcases List.mem_cons.mp ho with rfl | ho
      · exact ⟨3, rfl⟩
      · rcases List.mem_cons.mp ho with rfl | ho
        · exact ⟨1, rfl⟩
        · cases ho)
    (by simp)
    [("timestamp", Json.num 7), ("v", Json.num 1)]
    [("timestamp", Json.num 7), ("v", Json.num 2)]
    "p" true 7 rfl rfl
